import Mathlib

/-!
Verification of the photovoltaic curve solver in src/tablero/pv_model.py.

The development embeds the class PVModel: its constructor, the input
validation, the derived electrical parameters, the voltage sweep, the
implicit single-diode current equation, the per-sample current solve,
the assembled curve table and the maximum-power extraction.

Numeric inputs (irradiance, temperature, the fixed physical constants)
are Python floats, hence rational numbers; they are embedded as rationals.
Derived quantities involve the natural exponential and live in the reals.
The call to scipy.optimize.fsolve is embedded as an idealized real-valued
root selection: it returns a value at which the supplied function
vanishes whenever such a value exists (residual tolerance zero).
-/

set_option maxHeartbeats 1000000
set_option maxRecDepth 8000

/-- Errors raised by PVModel.validate_inputs.  The source raises ValueError
with four distinct messages; each constructor stands for one of them, in the
order the checks appear in the source. -/
inductive PVError where
  | invalidG
  | invalidT
  | invalidSeries
  | invalidParallel
deriving DecidableEq

/-- Whether a validation error concerns the operating point (irradiance or
temperature), the class the specification calls InvalidOperatingPoint. -/
def PVError.isOperatingPointError : PVError → Bool
  | .invalidG => true
  | .invalidT => true
  | _ => false

/-- Whether a validation error concerns the array configuration (series or
parallel panel count), the class the specification calls InvalidArrayConfig. -/
def PVError.isArrayConfigError : PVError → Bool
  | .invalidSeries => true
  | .invalidParallel => true
  | _ => false

/-- The instance state of the Python class PVModel: the fixed physical
constants and the array-scaled quantities set in the constructor. -/
structure PVModel where
  R_sh : ℚ
  k_i : ℚ
  T_n : ℚ
  q : ℚ
  n : ℚ
  K : ℚ
  E_g0 : ℚ
  R_s : ℚ
  num_panels_series : ℤ
  num_panels_parallel : ℤ
  I_sc : ℚ
  V_oc : ℚ
  N_s : ℚ

/-- The constructor of PVModel: fixed constants and the array-scaled
short-circuit current, open-circuit voltage and series cell count. -/
def PVModel.init (ns npar : ℤ) : PVModel where
  R_sh := 545.82
  k_i := 0.037
  T_n := 298
  q := 1.60217646e-19
  n := 1.0
  K := 1.3806503e-23
  E_g0 := 1.1
  R_s := 0.39
  num_panels_series := ns
  num_panels_parallel := npar
  I_sc := 9.35 * (npar : ℚ)
  V_oc := 47.4 * (ns : ℚ)
  N_s := 72 * (ns : ℚ)

/-- PVModel.validate_inputs: the four checks in source order.  The
isinstance checks of the source are subsumed by the types of the embedding
(irradiance and temperature are rationals, panel counts are integers). -/
def PVModel.validate_inputs (m : PVModel) (G T : ℚ) : Except PVError Unit :=
  if G ≤ 0 then .error .invalidG
  else if T ≤ 0 then .error .invalidT
  else if m.num_panels_series ≤ 0 then .error .invalidSeries
  else if m.num_panels_parallel ≤ 0 then .error .invalidParallel
  else .ok ()

/-- Embedding of numpy.linspace a b n with endpoint=True: n samples
a + (b - a) * k / (n - 1) for k = 0, ..., n - 1. -/
def linspace (a b : ℚ) (n : ℕ) : List ℚ :=
  (List.range n).map (fun k : ℕ => a + (b - a) * (k : ℚ) / ((n : ℚ) - 1))

/-- Idealized real-valued model of scipy.optimize.fsolve on one scalar
equation: it returns a point where the supplied function vanishes whenever
one exists (residual tolerance zero), and the initial guess otherwise. -/
noncomputable def fsolveRoot (g : ℝ → ℝ) (x0 : ℝ) : ℝ :=
  haveI := Classical.propDecidable (∃ x, g x = 0)
  if h : ∃ x, g x = 0 then h.choose else x0

/-- Embedding of pandas Series.idxmax on a positionally indexed column:
the index of the first occurrence of the maximum value. -/
noncomputable def idxmax : List ℝ → ℕ
  | [] => 0
  | [_] => 0
  | x :: y :: rest =>
    if x < (y :: rest).getD (idxmax (y :: rest)) 0 then idxmax (y :: rest) + 1 else 0

/-- PVModel.modelo_pv, line I_rs: reverse saturation current. -/
noncomputable def PVModel.I_rs (m : PVModel) (T : ℚ) : ℝ :=
  (m.I_sc : ℝ) /
    (Real.exp (((m.q : ℝ) * (m.V_oc : ℝ)) / ((m.n : ℝ) * (m.N_s : ℝ) * (m.K : ℝ) * (T : ℝ))) - 1)

/-- PVModel.modelo_pv, line I_o: temperature-adjusted saturation current,
with a first-power temperature ratio T / T_n. -/
noncomputable def PVModel.I_o (m : PVModel) (T : ℚ) : ℝ :=
  m.I_rs T * ((T : ℝ) / (m.T_n : ℝ)) *
    Real.exp (((m.q : ℝ) * (m.E_g0 : ℝ) * (1 / (m.T_n : ℝ) - 1 / (T : ℝ))) / ((m.n : ℝ) * (m.K : ℝ)))

/-- PVModel.modelo_pv, line I_ph: photogenerated current.  A pure rational
computation in the source (no exponential). -/
def PVModel.I_ph (m : PVModel) (G T : ℚ) : ℚ :=
  (m.I_sc + m.k_i * (T - 298)) * (G / 1000)

/-- The nested function f of PVModel.modelo_pv: the implicit single-diode
relation between current I and voltage V. -/
noncomputable def PVModel.f (m : PVModel) (G T : ℚ) (I : ℝ) (V : ℚ) : ℝ :=
  (m.I_ph G T : ℝ) -
    m.I_o T * (Real.exp (((m.q : ℝ) * ((V : ℝ) + I * (m.R_s : ℝ))) /
      ((m.n : ℝ) * (m.K : ℝ) * (m.N_s : ℝ) * (T : ℝ))) - 1) -
    ((V : ℝ) + I * (m.R_s : ℝ)) / (m.R_sh : ℝ) - I

/-- PVModel.modelo_pv, line Vpv: the voltage sweep, 1000 points from 0 to
the array open-circuit voltage. -/
def PVModel.Vpv (m : PVModel) : List ℚ :=
  linspace 0 m.V_oc 1000

/-- PVModel.modelo_pv, line Ipv: one solve of f per voltage sample, seeded
with the short-circuit current as initial guess. -/
noncomputable def PVModel.Ipv (m : PVModel) (G T : ℚ) : List ℝ :=
  m.Vpv.map (fun V => fsolveRoot (fun I => m.f G T I V) (m.I_sc : ℝ))

/-- PVModel.modelo_pv, line Ppv: elementwise power product of the voltage
and current columns. -/
noncomputable def PVModel.Ppv (m : PVModel) (G T : ℚ) : List ℝ :=
  List.zipWith (fun (V : ℚ) (I : ℝ) => (V : ℝ) * I) m.Vpv (m.Ipv G T)

/-- The value returned by PVModel.modelo_pv: the three DataFrame columns and
the maximum-power point read off at the idxmax row of the power column. -/
structure PVResult where
  corriente : List ℝ
  voltaje : List ℚ
  potencia : List ℝ
  Vmpp : ℚ
  Impp : ℝ
  P_max : ℝ

/-- PVModel.modelo_pv: validate, derive, sweep, solve, assemble, extract. -/
noncomputable def PVModel.modelo_pv (m : PVModel) (G T : ℚ) : Except PVError PVResult :=
  match m.validate_inputs G T with
  | .error e => .error e
  | .ok _ =>
    .ok { corriente := m.Ipv G T
          voltaje := m.Vpv
          potencia := m.Ppv G T
          Vmpp := m.Vpv.getD (idxmax (m.Ppv G T)) 0
          Impp := (m.Ipv G T).getD (idxmax (m.Ppv G T)) 0
          P_max := (m.Ppv G T).getD (idxmax (m.Ppv G T)) 0 }

/-- The generic single-diode residual with abstract coefficients:
A the photogenerated current, B the saturation current, c the exponent
coefficient, v the voltage sample, r the series resistance, s the shunt
resistance.  PVModel.f instantiates it. -/
noncomputable def diodeF (A B c v r s I : ℝ) : ℝ :=
  A - B * (Real.exp (c * (v + I * r)) - 1) - (v + I * r) / s - I

/-- Formula for the reverse saturation current transcribed from the
specification, section 4.2, with each symbol an explicit argument. -/
noncomputable def spec_I_rs (Isc Voc q n Ns K T : ℝ) : ℝ :=
  Isc / (Real.exp (q * Voc / (n * Ns * K * T)) - 1)

/-- Formula for the temperature-adjusted saturation current transcribed from
the specification, section 4.2: first-power temperature ratio T / Tn. -/
noncomputable def spec_I_o (Irs T Tn q Eg0 n K : ℝ) : ℝ :=
  Irs * (T / Tn) * Real.exp (q * Eg0 * (1 / Tn - 1 / T) / (n * K))

/-- Formula for the photogenerated current transcribed from the
specification, section 4.2. -/
noncomputable def spec_I_ph (Isc ki T G : ℝ) : ℝ :=
  (Isc + ki * (T - 298)) * (G / 1000)

/-! ### Basic facts about the pipeline -/

lemma validate_inputs_ok_of (m : PVModel) (G T : ℚ) (hG : 0 < G) (hT : 0 < T)
    (hs : 0 < m.num_panels_series) (hp : 0 < m.num_panels_parallel) :
    m.validate_inputs G T = .ok () := by
  unfold PVModel.validate_inputs
  rw [if_neg (by linarith), if_neg (by linarith), if_neg (by omega), if_neg (by omega)]

lemma modelo_pv_eq_ok (m : PVModel) (G T : ℚ) (h : m.validate_inputs G T = .ok ()) :
    m.modelo_pv G T =
      .ok { corriente := m.Ipv G T
            voltaje := m.Vpv
            potencia := m.Ppv G T
            Vmpp := m.Vpv.getD (idxmax (m.Ppv G T)) 0
            Impp := (m.Ipv G T).getD (idxmax (m.Ppv G T)) 0
            P_max := (m.Ppv G T).getD (idxmax (m.Ppv G T)) 0 } := by
  unfold PVModel.modelo_pv
  rw [h]

lemma modelo_pv_eq_error (m : PVModel) (G T : ℚ) (e : PVError)
    (h : m.validate_inputs G T = .error e) : m.modelo_pv G T = .error e := by
  unfold PVModel.modelo_pv
  rw [h]

lemma linspace_length (a b : ℚ) (n : ℕ) : (linspace a b n).length = n := by
  unfold linspace
  rw [List.length_map, List.length_range]

lemma linspace_getD (a b : ℚ) (n : ℕ) (i : ℕ) (hi : i < n) :
    (linspace a b n).getD i 0 = a + (b - a) * (i : ℚ) / ((n : ℚ) - 1) := by
  unfold linspace
  have h1 : i < ((List.range n).map fun k : ℕ => a + (b - a) * (k : ℚ) / ((n : ℚ) - 1)).length := by
    rw [List.length_map, List.length_range]; exact hi
  rw [List.getD_eq_getElem _ _ h1, List.getElem_map, List.getElem_range]

lemma Vpv_length (m : PVModel) : m.Vpv.length = 1000 := by
  unfold PVModel.Vpv
  exact linspace_length _ _ _

lemma Ipv_length (m : PVModel) (G T : ℚ) : (m.Ipv G T).length = 1000 := by
  unfold PVModel.Ipv
  rw [List.length_map, Vpv_length]

lemma Ppv_length (m : PVModel) (G T : ℚ) : (m.Ppv G T).length = 1000 := by
  unfold PVModel.Ppv
  rw [List.length_zipWith, Vpv_length, Ipv_length]
  simp

lemma I_ph_ref_eq (m : PVModel) : m.I_ph 1000 298 = m.I_sc := by
  unfold PVModel.I_ph
  ring_nf

lemma Ipv_getD (m : PVModel) (G T : ℚ) (k : ℕ) (hk : k < 1000) :
    (m.Ipv G T).getD k 0 = fsolveRoot (fun I => m.f G T I (m.Vpv.getD k 0)) (m.I_sc : ℝ) := by
  have hkI : k < (m.Ipv G T).length := by rw [Ipv_length]; exact hk
  have hkV : k < m.Vpv.length := by rw [Vpv_length]; exact hk
  rw [List.getD_eq_getElem _ _ hkI, List.getD_eq_getElem _ _ hkV]
  simp only [PVModel.Ipv]
  rw [List.getElem_map]

lemma Ppv_getD (m : PVModel) (G T : ℚ) (k : ℕ) (hk : k < 1000) :
    (m.Ppv G T).getD k 0 = ((m.Vpv.getD k 0 : ℚ) : ℝ) * (m.Ipv G T).getD k 0 := by
  have hkP : k < (m.Ppv G T).length := by rw [Ppv_length]; exact hk
  have hkV : k < m.Vpv.length := by rw [Vpv_length]; exact hk
  have hkI : k < (m.Ipv G T).length := by rw [Ipv_length]; exact hk
  rw [List.getD_eq_getElem _ _ hkP, List.getD_eq_getElem _ _ hkV, List.getD_eq_getElem _ _ hkI]
  simp only [PVModel.Ppv]
  rw [List.getElem_zipWith]

/-! ### Claims C6, C10, C4 -/

/-- Claim C6: for every valid pair of positive panel counts, the array-level
constants scale exactly linearly: short-circuit current 9.35 per parallel
panel, open-circuit voltage 47.4 per series panel, 72 series cells per
series panel. -/
theorem C6_array_scaling (s p : ℤ) (hs : 0 < s) (hp : 0 < p) :
    (PVModel.init s p).I_sc = 9.35 * (p : ℚ) ∧
    (PVModel.init s p).V_oc = 47.4 * (s : ℚ) ∧
    (PVModel.init s p).N_s = 72 * (s : ℚ) :=
  ⟨rfl, rfl, rfl⟩

theorem C6_array_scaling_witness :
    (PVModel.init 4 3).I_sc = 9.35 * (3 : ℚ) ∧
    (PVModel.init 4 3).V_oc = 47.4 * (4 : ℚ) ∧
    (PVModel.init 4 3).N_s = 72 * (4 : ℚ) :=
  C6_array_scaling 4 3 (by norm_num) (by norm_num)

/-- Claim C10: at the reference operating point, irradiance 1000 and
temperature 298, the photogenerated current equals the array short-circuit
current exactly, for every valid array configuration. -/
theorem C10_Iph_reference (s p : ℤ) (hs : 0 < s) (hp : 0 < p) :
    (PVModel.init s p).I_ph 1000 298 = (PVModel.init s p).I_sc :=
  I_ph_ref_eq _

theorem C10_Iph_reference_witness :
    (PVModel.init 4 3).I_ph 1000 298 = (PVModel.init 4 3).I_sc :=
  C10_Iph_reference 4 3 (by norm_num) (by norm_num)

/-- Claim C4: in the assembled curve table, the power entry at every index
is exactly the product of the voltage and current entries at that same
index, and the power column pairs the voltage and current columns. -/
theorem C4_power_is_product (m : PVModel) (G T : ℚ) (k : ℕ)
    (hk : k < (m.Ppv G T).length) :
    (m.Ppv G T).getD k 0 = ((m.Vpv.getD k 0 : ℚ) : ℝ) * (m.Ipv G T).getD k 0 :=
  Ppv_getD m G T k (by rw [Ppv_length] at hk; exact hk)

theorem C4_power_is_product_witness :
    ((PVModel.init 4 3).Ppv 1000 298).getD 5 0 =
      (((PVModel.init 4 3).Vpv.getD 5 0 : ℚ) : ℝ) * ((PVModel.init 4 3).Ipv 1000 298).getD 5 0 :=
  C4_power_is_product (PVModel.init 4 3) 1000 298 5 (by rw [Ppv_length]; norm_num)

/-! ### Claim C5: the voltage sweep -/

/-- Claim C5: for every positive open-circuit voltage and every sweep
resolution N of at least two samples (the source instantiates N = 1000),
the sweep has exactly N entries, starts at 0, ends at the open-circuit
voltage, is non-decreasing, and has constant spacing; and the sweep of
modelo_pv is this sequence at N = 1000. -/
theorem C5_voltage_sweep (Voc : ℚ) (hV : 0 < Voc) (N : ℕ) (hN : 2 ≤ N) :
    (linspace 0 Voc N).length = N ∧
    (linspace 0 Voc N).getD 0 0 = 0 ∧
    (linspace 0 Voc N).getD (N - 1) 0 = Voc ∧
    (∀ i j, i ≤ j → j < N → (linspace 0 Voc N).getD i 0 ≤ (linspace 0 Voc N).getD j 0) ∧
    (∀ i, i + 1 < N →
      (linspace 0 Voc N).getD (i + 1) 0 - (linspace 0 Voc N).getD i 0 = Voc / ((N : ℚ) - 1)) ∧
    (∀ m : PVModel, m.Vpv = linspace 0 m.V_oc 1000) := by
  have hN2 : (2 : ℚ) ≤ (N : ℚ) := by exact_mod_cast hN
  have hd : (0 : ℚ) < (N : ℚ) - 1 := by linarith
  have hdne : (N : ℚ) - 1 ≠ 0 := ne_of_gt hd
  refine ⟨linspace_length 0 Voc N, ?_, ?_, ?_, ?_, fun _ => rfl⟩
  · rw [linspace_getD 0 Voc N 0 (by omega)]
    norm_num
  · rw [linspace_getD 0 Voc N (N - 1) (by omega)]
    rw [Nat.cast_sub (by omega : 1 ≤ N)]
    push_cast
    field_simp
  · intro i j hij hj
    rw [linspace_getD 0 Voc N i (by omega), linspace_getD 0 Voc N j (by omega)]
    have hij2 : (i : ℚ) ≤ (j : ℚ) := by exact_mod_cast hij
    have h1 : Voc * (i : ℚ) ≤ Voc * (j : ℚ) :=
      mul_le_mul_of_nonneg_left hij2 (le_of_lt hV)
    have h2 : (Voc - 0) * (i : ℚ) / ((N : ℚ) - 1) ≤ (Voc - 0) * (j : ℚ) / ((N : ℚ) - 1) := by
      apply div_le_div_of_nonneg_right ?_ hd.le
      simpa using h1
    linarith
  · intro i hi
    rw [linspace_getD 0 Voc N (i + 1) (by omega), linspace_getD 0 Voc N i (by omega)]
    push_cast
    ring

theorem C5_voltage_sweep_witness :
    (linspace 0 189.6 1000).length = 1000 ∧
    (linspace 0 189.6 1000).getD 0 0 = 0 ∧
    (linspace 0 189.6 1000).getD 999 0 = 189.6 ∧
    (∀ i j, i ≤ j → j < 1000 →
      (linspace 0 189.6 1000).getD i 0 ≤ (linspace 0 189.6 1000).getD j 0) ∧
    (∀ i, i + 1 < 1000 →
      (linspace 0 189.6 1000).getD (i + 1) 0 - (linspace 0 189.6 1000).getD i 0 =
        189.6 / ((1000 : ℚ) - 1)) ∧
    (∀ m : PVModel, m.Vpv = linspace 0 m.V_oc 1000) :=
  C5_voltage_sweep 189.6 (by norm_num) 1000 (by norm_num)

/-! ### Claim C2: the derived-parameter formulas -/

/-- Claim C2: for every valid array configuration and operating point, the
derived electrical parameters computed by modelo_pv equal exactly the three
formulas of the specification, instantiated at the array-scaled constants,
with a first-power temperature ratio in the saturation current. -/
theorem C2_derived_parameters (s p : ℤ) (hs : 0 < s) (hp : 0 < p) (G T : ℚ)
    (hG : 0 < G) (hT : 0 < T) :
    (PVModel.init s p).I_rs T =
      spec_I_rs (9.35 * (p : ℝ)) (47.4 * (s : ℝ)) 1.60217646e-19 1 (72 * (s : ℝ))
        1.3806503e-23 (T : ℝ) ∧
    (PVModel.init s p).I_o T =
      spec_I_o ((PVModel.init s p).I_rs T) (T : ℝ) 298 1.60217646e-19 1.1 1 1.3806503e-23 ∧
    ((PVModel.init s p).I_ph G T : ℝ) =
      spec_I_ph (9.35 * (p : ℝ)) 0.037 (T : ℝ) (G : ℝ) := by
  refine ⟨?_, ?_, ?_⟩
  · simp only [PVModel.I_rs, spec_I_rs, PVModel.init]
    push_cast
    norm_num
  · simp only [PVModel.I_o, spec_I_o, PVModel.init]
    push_cast
    norm_num
  · simp only [PVModel.I_ph, spec_I_ph, PVModel.init]
    push_cast
    norm_num

theorem C2_derived_parameters_witness :
    (PVModel.init 4 3).I_rs 298 =
      spec_I_rs (9.35 * (3 : ℝ)) (47.4 * (4 : ℝ)) 1.60217646e-19 1 (72 * (4 : ℝ))
        1.3806503e-23 (298 : ℝ) ∧
    (PVModel.init 4 3).I_o 298 =
      spec_I_o ((PVModel.init 4 3).I_rs 298) (298 : ℝ) 298 1.60217646e-19 1.1 1 1.3806503e-23 ∧
    ((PVModel.init 4 3).I_ph 1000 298 : ℝ) =
      spec_I_ph (9.35 * (3 : ℝ)) 0.037 (298 : ℝ) (1000 : ℝ) := by
  have h := C2_derived_parameters 4 3 (by norm_num) (by norm_num) 1000 298
    (by norm_num) (by norm_num)
  push_cast at h ⊢
  exact h

/-! ### Claim C7: validation order and error propagation -/

/-- Counterexample to claim C7 as stated: at irradiance 0 with zero series
panels, both an operating-point condition and an array-configuration
condition are violated, yet validation reports the irradiance error, not an
array-configuration error, because the irradiance check runs first. -/
theorem C7_counterexample :
    (PVModel.init 0 1).validate_inputs 0 298 = Except.error PVError.invalidG ∧
    PVError.isArrayConfigError PVError.invalidG = false ∧
    (PVModel.init 0 1).num_panels_series ≤ 0 := by
  refine ⟨?_, rfl, le_refl 0⟩
  unfold PVModel.validate_inputs
  rw [if_pos le_rfl]

/-- Claim C7 (amended): validation fails with an operating-point error
whenever G ≤ 0 or T ≤ 0; it fails with an array-configuration error
whenever the operating point is valid and a panel count is not positive
(the operating-point checks run first); and every validation error is
returned unchanged by modelo_pv, so no derived-parameter computation is
attempted and no partial result is produced. -/
theorem C7_validation (G T : ℚ) (ns npar : ℤ) :
    ((G ≤ 0 ∨ T ≤ 0) →
      ∃ e, (PVModel.init ns npar).validate_inputs G T = Except.error e ∧
        e.isOperatingPointError = true) ∧
    ((0 < G ∧ 0 < T ∧ (ns ≤ 0 ∨ npar ≤ 0)) →
      ∃ e, (PVModel.init ns npar).validate_inputs G T = Except.error e ∧
        e.isArrayConfigError = true) ∧
    (∀ e, (PVModel.init ns npar).validate_inputs G T = Except.error e →
      (PVModel.init ns npar).modelo_pv G T = Except.error e) := by
  refine ⟨?_, ?_, fun e he => modelo_pv_eq_error _ _ _ e he⟩
  · intro h
    unfold PVModel.validate_inputs
    by_cases hG : G ≤ 0
    · exact ⟨.invalidG, by rw [if_pos hG], rfl⟩
    · have hT : T ≤ 0 := h.resolve_left hG
      exact ⟨.invalidT, by rw [if_neg hG, if_pos hT], rfl⟩
  · rintro ⟨hG, hT, h⟩
    unfold PVModel.validate_inputs
    have hG2 : ¬ G ≤ 0 := not_le.mpr hG
    have hT2 : ¬ T ≤ 0 := not_le.mpr hT
    by_cases hns : ns ≤ 0
    · refine ⟨.invalidSeries, ?_, rfl⟩
      rw [if_neg hG2, if_neg hT2,
        if_pos (show (PVModel.init ns npar).num_panels_series ≤ 0 from hns)]
    · have hnp : npar ≤ 0 := h.resolve_left hns
      refine ⟨.invalidParallel, ?_, rfl⟩
      rw [if_neg hG2, if_neg hT2,
        if_neg (show ¬ (PVModel.init ns npar).num_panels_series ≤ 0 from hns),
        if_pos (show (PVModel.init ns npar).num_panels_parallel ≤ 0 from hnp)]

theorem C7_validation_witness :
    (∃ e, (PVModel.init 2 1).validate_inputs 0 298 = Except.error e ∧
      e.isOperatingPointError = true) ∧
    (∃ e, (PVModel.init 0 1).validate_inputs 1000 298 = Except.error e ∧
      e.isArrayConfigError = true) ∧
    (PVModel.init 0 1).modelo_pv 1000 298 = Except.error PVError.invalidSeries := by
  have h1 := (C7_validation 0 298 2 1).1 (Or.inl le_rfl)
  have h2 := (C7_validation 1000 298 0 1).2.1 ⟨by norm_num, by norm_num, Or.inl le_rfl⟩
  have hv : (PVModel.init 0 1).validate_inputs 1000 298 = Except.error PVError.invalidSeries := by
    unfold PVModel.validate_inputs
    rw [if_neg (by norm_num), if_neg (by norm_num),
      if_pos (show (PVModel.init 0 1).num_panels_series ≤ 0 from le_refl 0)]
  exact ⟨h1, h2, (C7_validation 1000 298 0 1).2.2 _ hv⟩

/-! ### Claim C3: maximum-power extraction -/

lemma idxmax_lt_length : ∀ (l : List ℝ), l ≠ [] → idxmax l < l.length
  | [], h => absurd rfl h
  | [_], _ => by simp [idxmax]
  | x :: y :: rest, _ => by
    rw [idxmax]
    split
    · exact Nat.succ_lt_succ (idxmax_lt_length (y :: rest) (by simp))
    · simp

lemma idxmax_is_ub : ∀ (l : List ℝ) (i : ℕ), i < l.length →
    l.getD i 0 ≤ l.getD (idxmax l) 0
  | [], i, h => by simp at h
  | [x], i, h => by
    have hi : i = 0 := by simpa using Nat.lt_one_iff.mp (by simpa using h)
    subst hi
    simp [idxmax]
  | x :: y :: rest, i, h => by
    rw [idxmax]
    by_cases hx : x < (y :: rest).getD (idxmax (y :: rest)) 0
    · rw [if_pos hx]
      cases i with
      | zero => simpa [List.getD_cons_zero, List.getD_cons_succ] using le_of_lt hx
      | succ j =>
        rw [List.getD_cons_succ, List.getD_cons_succ]
        exact idxmax_is_ub (y :: rest) j (by simpa using h)
    · rw [if_neg hx]
      cases i with
      | zero => simp
      | succ j =>
        rw [List.getD_cons_succ, List.getD_cons_zero]
        exact le_trans (idxmax_is_ub (y :: rest) j (by simpa using h)) (not_lt.mp hx)

lemma idxmax_first_max : ∀ (l : List ℝ) (i : ℕ), i < idxmax l →
    l.getD i 0 < l.getD (idxmax l) 0
  | [], i, h => by simp [idxmax] at h
  | [_], i, h => by simp [idxmax] at h
  | x :: y :: rest, i, h => by
    rw [idxmax] at h ⊢
    by_cases hx : x < (y :: rest).getD (idxmax (y :: rest)) 0
    · rw [if_pos hx] at h ⊢
      cases i with
      | zero => simpa [List.getD_cons_zero, List.getD_cons_succ] using hx
      | succ j =>
        rw [List.getD_cons_succ, List.getD_cons_succ]
        exact idxmax_first_max (y :: rest) j (Nat.lt_of_succ_lt_succ h)
    · rw [if_neg hx] at h
      exact absurd h (Nat.not_lt_zero i)

/-- Claim C3: for every non-empty power column, the extracted row index is
in range, its power is a maximum of the column (no entry is strictly
greater), and every entry at a smaller index is strictly smaller, so a tie
is broken by the first maximal entry in index order. -/
theorem C3_mpp_extraction (l : List ℝ) (h : l ≠ []) :
    idxmax l < l.length ∧
    (∀ i, i < l.length → l.getD i 0 ≤ l.getD (idxmax l) 0) ∧
    (∀ i, i < idxmax l → l.getD i 0 < l.getD (idxmax l) 0) :=
  ⟨idxmax_lt_length l h, fun i hi => idxmax_is_ub l i hi,
    fun i hi => idxmax_first_max l i hi⟩

theorem C3_mpp_extraction_witness :
    idxmax [(1 : ℝ), 3, 3, 2] < [(1 : ℝ), 3, 3, 2].length ∧
    (∀ i, i < [(1 : ℝ), 3, 3, 2].length →
      [(1 : ℝ), 3, 3, 2].getD i 0 ≤ [(1 : ℝ), 3, 3, 2].getD (idxmax [(1 : ℝ), 3, 3, 2]) 0) ∧
    (∀ i, i < idxmax [(1 : ℝ), 3, 3, 2] →
      [(1 : ℝ), 3, 3, 2].getD i 0 < [(1 : ℝ), 3, 3, 2].getD (idxmax [(1 : ℝ), 3, 3, 2]) 0) :=
  C3_mpp_extraction [(1 : ℝ), 3, 3, 2] (by simp)

/-! ### Existence and sign of roots of the single-diode equation -/

lemma fsolveRoot_spec (g : ℝ → ℝ) (x0 : ℝ) (h : ∃ x, g x = 0) :
    g (fsolveRoot g x0) = 0 := by
  unfold fsolveRoot
  rw [dif_pos h]
  exact h.choose_spec

lemma diodeF_exists_root (A B c v r s : ℝ) (hB : 0 ≤ B) (hc : 0 ≤ c)
    (hr : 0 < r) (hs : 0 < s) : ∃ I, diodeF A B c v r s I = 0 := by
  set I₁ := min 0 (min A (-(v / r))) with hI₁def
  set I₂ := max (A + B) (-(v / r)) with hI₂def
  have hI₁A : I₁ ≤ A := le_trans (min_le_right _ _) (min_le_left _ _)
  have hI₁v : I₁ ≤ -(v / r) := le_trans (min_le_right _ _) (min_le_right _ _)
  have hI₂v : -(v / r) ≤ I₂ := le_max_right _ _
  have hI₂AB : A + B ≤ I₂ := le_max_left _ _
  have hle : I₁ ≤ I₂ := le_trans hI₁A (by linarith)
  have hvr : -(v / r) * r = -v := by field_simp
  have h1 : v + I₁ * r ≤ 0 := by
    have := mul_le_mul_of_nonneg_right hI₁v (le_of_lt hr)
    rw [hvr] at this
    linarith
  have h2 : 0 ≤ v + I₂ * r := by
    have := mul_le_mul_of_nonneg_right hI₂v (le_of_lt hr)
    rw [hvr] at this
    linarith
  have hf1 : 0 ≤ diodeF A B c v r s I₁ := by
    unfold diodeF
    have hexp : Real.exp (c * (v + I₁ * r)) ≤ 1 := by
      rw [Real.exp_le_one_iff]
      exact mul_nonpos_iff.mpr (Or.inl ⟨hc, h1⟩)
    have hB1 : B * (Real.exp (c * (v + I₁ * r)) - 1) ≤ 0 :=
      mul_nonpos_iff.mpr (Or.inl ⟨hB, by linarith⟩)
    have hdiv : (v + I₁ * r) / s ≤ 0 := div_nonpos_iff.mpr (Or.inr ⟨h1, hs.le⟩)
    linarith
  have hf2 : diodeF A B c v r s I₂ ≤ 0 := by
    unfold diodeF
    have hBe : 0 ≤ B * Real.exp (c * (v + I₂ * r)) :=
      mul_nonneg hB (Real.exp_pos _).le
    have hdiv : 0 ≤ (v + I₂ * r) / s := div_nonneg h2 hs.le
    linarith
  have hcont : Continuous fun I => diodeF A B c v r s I := by
    unfold diodeF
    fun_prop
  have hmem : (0 : ℝ) ∈ Set.Icc (diodeF A B c v r s I₂) (diodeF A B c v r s I₁) :=
    ⟨hf2, hf1⟩
  obtain ⟨I, _, hI⟩ := intermediate_value_Icc' hle hcont.continuousOn hmem
  exact ⟨I, hI⟩

lemma diodeF_root_neg (A B c v r s I : ℝ) (hB : 0 ≤ B) (hc : 0 ≤ c)
    (hr : 0 < r) (hs : 0 < s) (h0 : diodeF A B c v r s 0 < 0)
    (hI : diodeF A B c v r s I = 0) : I < 0 := by
  by_contra hcon
  push_neg at hcon
  have hIr : 0 + 0 * r ≤ v + I * r - v := by nlinarith
  have hexp : Real.exp (c * (v + 0 * r)) ≤ Real.exp (c * (v + I * r)) := by
    apply Real.exp_le_exp.mpr
    apply mul_le_mul_of_nonneg_left ?_ hc
    nlinarith
  have hdiv : (v + 0 * r) / s ≤ (v + I * r) / s := by
    apply div_le_div_of_nonneg_right ?_ hs.le
    nlinarith
  have hBe : B * Real.exp (c * (v + 0 * r)) ≤ B * Real.exp (c * (v + I * r)) :=
    mul_le_mul_of_nonneg_left hexp hB
  unfold diodeF at h0 hI
  linarith

lemma f_eq_diodeF (m : PVModel) (G T : ℚ) (I : ℝ) (V : ℚ) :
    m.f G T I V = diodeF ((m.I_ph G T : ℚ) : ℝ) (m.I_o T)
      ((m.q : ℝ) / ((m.n : ℝ) * (m.K : ℝ) * (m.N_s : ℝ) * (T : ℝ)))
      (V : ℝ) (m.R_s : ℝ) (m.R_sh : ℝ) I := by
  unfold PVModel.f diodeF
  ring_nf

lemma init_R_s_pos (s p : ℤ) : (0 : ℝ) < ((PVModel.init s p).R_s : ℝ) := by
  norm_num [PVModel.init]

lemma init_R_sh_pos (s p : ℤ) : (0 : ℝ) < ((PVModel.init s p).R_sh : ℝ) := by
  norm_num [PVModel.init]

lemma init_c_pos (s p : ℤ) (hs : 0 < s) (T : ℚ) (hT : 0 < T) :
    0 < ((PVModel.init s p).q : ℝ) /
      (((PVModel.init s p).n : ℝ) * ((PVModel.init s p).K : ℝ) *
        ((PVModel.init s p).N_s : ℝ) * (T : ℝ)) := by
  have hs2 : (0 : ℝ) < (s : ℝ) := by exact_mod_cast hs
  have hT2 : (0 : ℝ) < (T : ℝ) := by exact_mod_cast hT
  simp only [PVModel.init]
  push_cast
  apply div_pos (by norm_num)
  apply mul_pos (mul_pos (mul_pos (by norm_num) (by norm_num)) (by linarith)) hT2

lemma init_I_rs_pos (s p : ℤ) (hs : 0 < s) (hp : 0 < p) (T : ℚ) (hT : 0 < T) :
    0 < (PVModel.init s p).I_rs T := by
  have hs2 : (0 : ℝ) < (s : ℝ) := by exact_mod_cast hs
  have hp2 : (0 : ℝ) < (p : ℝ) := by exact_mod_cast hp
  have hT2 : (0 : ℝ) < (T : ℝ) := by exact_mod_cast hT
  unfold PVModel.I_rs
  have hX : (0 : ℝ) < ((PVModel.init s p).q : ℝ) * ((PVModel.init s p).V_oc : ℝ) /
      (((PVModel.init s p).n : ℝ) * ((PVModel.init s p).N_s : ℝ) *
        ((PVModel.init s p).K : ℝ) * (T : ℝ)) := by
    simp only [PVModel.init]
    push_cast
    apply div_pos
    · apply mul_pos (by norm_num)
      apply mul_pos (by norm_num) hs2
    · apply mul_pos (mul_pos (mul_pos (by norm_num) (by linarith)) (by norm_num)) hT2
  apply div_pos
  · simp only [PVModel.init]
    push_cast
    apply mul_pos (by norm_num) hp2
  · have := Real.one_lt_exp_iff.mpr hX
    linarith

lemma init_I_o_pos (s p : ℤ) (hs : 0 < s) (hp : 0 < p) (T : ℚ) (hT : 0 < T) :
    0 < (PVModel.init s p).I_o T := by
  have hT2 : (0 : ℝ) < (T : ℝ) := by exact_mod_cast hT
  unfold PVModel.I_o
  apply mul_pos (mul_pos (init_I_rs_pos s p hs hp T hT) ?_) (Real.exp_pos _)
  apply div_pos hT2
  norm_num [PVModel.init]

lemma f_root_exists (s p : ℤ) (hs : 0 < s) (hp : 0 < p) (G T : ℚ) (hT : 0 < T) (V : ℚ) :
    ∃ I, (PVModel.init s p).f G T I V = 0 := by
  obtain ⟨I, hI⟩ := diodeF_exists_root (((PVModel.init s p).I_ph G T : ℚ) : ℝ)
    ((PVModel.init s p).I_o T)
    (((PVModel.init s p).q : ℝ) / (((PVModel.init s p).n : ℝ) * ((PVModel.init s p).K : ℝ) *
      ((PVModel.init s p).N_s : ℝ) * (T : ℝ)))
    ((V : ℚ) : ℝ) ((PVModel.init s p).R_s : ℝ) ((PVModel.init s p).R_sh : ℝ)
    (init_I_o_pos s p hs hp T hT).le (init_c_pos s p hs T hT).le
    (init_R_s_pos s p) (init_R_sh_pos s p)
  exact ⟨I, by rw [f_eq_diodeF]; exact hI⟩

/-! ### Claim C1: the per-sample current solve -/

/-- Claim C1: for every valid configuration and operating point, modelo_pv
returns a result whose current column has exactly one entry per entry of the
voltage column (both of length 1000, aligned index for index), and at every
index the current satisfies the implicit single-diode relation f exactly
(residual zero in the idealized real-valued model of the solver, hence
within any residual tolerance). -/
theorem C1_solver_residual (s p : ℤ) (G T : ℚ) (hs : 0 < s) (hp : 0 < p)
    (hG : 0 < G) (hT : 0 < T) :
    ∃ r : PVResult, (PVModel.init s p).modelo_pv G T = Except.ok r ∧
      r.corriente.length = 1000 ∧ r.voltaje.length = 1000 ∧
      r.voltaje = (PVModel.init s p).Vpv ∧
      ∀ k, k < 1000 →
        (PVModel.init s p).f G T (r.corriente.getD k 0) (r.voltaje.getD k 0) = 0 := by
  have hval : (PVModel.init s p).validate_inputs G T = .ok () :=
    validate_inputs_ok_of _ G T hG hT hs hp
  refine ⟨_, modelo_pv_eq_ok _ G T hval, Ipv_length _ G T, Vpv_length _, rfl, ?_⟩
  intro k hk
  show (PVModel.init s p).f G T
    (((PVModel.init s p).Ipv G T).getD k 0) ((PVModel.init s p).Vpv.getD k 0) = 0
  rw [Ipv_getD _ G T k hk]
  exact fsolveRoot_spec _ _ (f_root_exists s p hs hp G T hT _)

theorem C1_solver_residual_witness :
    ∃ r : PVResult, (PVModel.init 4 3).modelo_pv 1000 298 = Except.ok r ∧
      r.corriente.length = 1000 ∧ r.voltaje.length = 1000 ∧
      r.voltaje = (PVModel.init 4 3).Vpv ∧
      ∀ k, k < 1000 →
        (PVModel.init 4 3).f 1000 298 (r.corriente.getD k 0) (r.voltaje.getD k 0) = 0 :=
  C1_solver_residual 4 3 1000 298 (by norm_num) (by norm_num) (by norm_num) (by norm_num)

/-! ### Claim C8: no range check on solver outputs -/

lemma ref_Vpv_999 : (PVModel.init 4 3).Vpv.getD 999 0 = (PVModel.init 4 3).V_oc := by
  unfold PVModel.Vpv
  rw [linspace_getD 0 ((PVModel.init 4 3).V_oc) 1000 999 (by norm_num)]
  norm_num

lemma ref_f_zero_neg :
    (PVModel.init 4 3).f 1000 298 0 ((PVModel.init 4 3).V_oc) < 0 := by
  set m := PVModel.init 4 3 with hm
  have hXpos : (0 : ℝ) < (m.q : ℝ) * (m.V_oc : ℝ) /
      ((m.n : ℝ) * (m.N_s : ℝ) * (m.K : ℝ) * ((298 : ℚ) : ℝ)) := by
    rw [hm]
    simp only [PVModel.init]
    push_cast
    norm_num
  have hne : Real.exp ((m.q : ℝ) * (m.V_oc : ℝ) /
      ((m.n : ℝ) * (m.N_s : ℝ) * (m.K : ℝ) * ((298 : ℚ) : ℝ))) - 1 ≠ 0 :=
    ne_of_gt (by linarith [Real.one_lt_exp_iff.mpr hXpos])
  have h1 : ((m.I_ph 1000 298 : ℚ) : ℝ) = (m.I_sc : ℝ) := by
    rw [I_ph_ref_eq]
  have h2 : m.I_o 298 = m.I_rs 298 := by
    unfold PVModel.I_o
    have e1 : ((298 : ℚ) : ℝ) / (m.T_n : ℝ) = 1 := by
      rw [hm]; simp only [PVModel.init]; norm_num
    have e2 : ((m.q : ℝ) * (m.E_g0 : ℝ) * (1 / (m.T_n : ℝ) - 1 / ((298 : ℚ) : ℝ))) /
        ((m.n : ℝ) * (m.K : ℝ)) = 0 := by
      rw [hm]; simp only [PVModel.init]; norm_num
    rw [e1, e2, Real.exp_zero, mul_one, mul_one]
  have h3 : m.I_rs 298 * (Real.exp ((m.q : ℝ) * (m.V_oc : ℝ) /
      ((m.n : ℝ) * (m.N_s : ℝ) * (m.K : ℝ) * ((298 : ℚ) : ℝ))) - 1) = (m.I_sc : ℝ) := by
    unfold PVModel.I_rs
    exact div_mul_cancel₀ _ hne
  have harg : ((m.q : ℝ) * ((m.V_oc : ℝ) + 0 * (m.R_s : ℝ))) /
      ((m.n : ℝ) * (m.K : ℝ) * (m.N_s : ℝ) * ((298 : ℚ) : ℝ)) =
      (m.q : ℝ) * (m.V_oc : ℝ) /
      ((m.n : ℝ) * (m.N_s : ℝ) * (m.K : ℝ) * ((298 : ℚ) : ℝ)) := by
    ring
  have hV : (0 : ℝ) < (m.V_oc : ℝ) := by rw [hm]; norm_num [PVModel.init]
  have hRsh : (0 : ℝ) < (m.R_sh : ℝ) := by rw [hm]; exact init_R_sh_pos 4 3
  unfold PVModel.f
  rw [h1, h2, harg, h3]
  have hd := div_pos hV hRsh
  have hexp2 : ((m.V_oc : ℝ) + 0 * (m.R_s : ℝ)) / (m.R_sh : ℝ) =
      (m.V_oc : ℝ) / (m.R_sh : ℝ) := by ring
  rw [hexp2]
  linarith

lemma ref_root_neg :
    fsolveRoot (fun I => (PVModel.init 4 3).f 1000 298 I ((PVModel.init 4 3).V_oc))
      ((PVModel.init 4 3).I_sc : ℝ) < 0 := by
  have hroot := f_root_exists 4 3 (by norm_num) (by norm_num) 1000 298 (by norm_num)
    ((PVModel.init 4 3).V_oc)
  have hzero := fsolveRoot_spec _ ((PVModel.init 4 3).I_sc : ℝ) hroot
  apply diodeF_root_neg (((PVModel.init 4 3).I_ph 1000 298 : ℚ) : ℝ)
    ((PVModel.init 4 3).I_o 298)
    (((PVModel.init 4 3).q : ℝ) / (((PVModel.init 4 3).n : ℝ) * ((PVModel.init 4 3).K : ℝ) *
      ((PVModel.init 4 3).N_s : ℝ) * ((298 : ℚ) : ℝ)))
    (((PVModel.init 4 3).V_oc : ℚ) : ℝ) ((PVModel.init 4 3).R_s : ℝ)
    ((PVModel.init 4 3).R_sh : ℝ) _
    (init_I_o_pos 4 3 (by norm_num) (by norm_num) 298 (by norm_num)).le
    (init_c_pos 4 3 (by norm_num) 298 (by norm_num)).le
    (init_R_s_pos 4 3) (init_R_sh_pos 4 3)
  · rw [← f_eq_diodeF]
    exact ref_f_zero_neg
  · rw [← f_eq_diodeF]
    exact hzero

/-- Counterexample to claim C8: at the reference configuration (4 series,
3 parallel, irradiance 1000, temperature 298) the pipeline returns a table
with no rejection, yet the current at the last sweep sample, the
open-circuit voltage, is strictly negative, outside [0, I_sc_array]. -/
theorem C8_counterexample :
    ∃ r : PVResult, (PVModel.init 4 3).modelo_pv 1000 298 = Except.ok r ∧
      r.corriente.getD 999 0 < 0 := by
  have hval : (PVModel.init 4 3).validate_inputs 1000 298 = .ok () :=
    validate_inputs_ok_of _ 1000 298 (by norm_num) (by norm_num)
      (by norm_num [PVModel.init]) (by norm_num [PVModel.init])
  refine ⟨_, modelo_pv_eq_ok _ 1000 298 hval, ?_⟩
  show ((PVModel.init 4 3).Ipv 1000 298).getD 999 0 < 0
  rw [Ipv_getD _ 1000 298 999 (by norm_num), ref_Vpv_999]
  exact ref_root_neg

/-- Claim C8 (amended): the code applies no finiteness or range check to
the solver outputs: whenever validation passes, modelo_pv returns the
1000-entry current column unchecked, with no rejection path for values
outside [0, I_sc_array] (and the counterexample exhibits an included
negative current). -/
theorem C8_no_rejection (s p : ℤ) (G T : ℚ) (hs : 0 < s) (hp : 0 < p)
    (hG : 0 < G) (hT : 0 < T) :
    ∃ r : PVResult, (PVModel.init s p).modelo_pv G T = Except.ok r ∧
      r.corriente = (PVModel.init s p).Ipv G T ∧ r.corriente.length = 1000 := by
  have hval := validate_inputs_ok_of (PVModel.init s p) G T hG hT hs hp
  exact ⟨_, modelo_pv_eq_ok _ G T hval, rfl, Ipv_length _ G T⟩

theorem C8_no_rejection_witness :
    ∃ r : PVResult, (PVModel.init 5 2).modelo_pv 800 310 = Except.ok r ∧
      r.corriente = (PVModel.init 5 2).Ipv 800 310 ∧ r.corriente.length = 1000 :=
  C8_no_rejection 5 2 800 310 (by norm_num) (by norm_num) (by norm_num) (by norm_num)
